import Mathlib

/-!
Shallow embedding of the web5-api message-admission engine:
the records-delete handler pipeline (parse, authenticate, authorize,
conflict resolution, index projection, persistence, event log, pruning),
the dispatcher pre-flight checks, protocol-definition normalization, and
hierarchical key derivation.  External collaborators (DID resolution,
signature checks, the storage backend, URL normalization, secp256k1) are
abstracted as inputs or function parameters; the control flow and data
shapes follow the source.
-/

/-- Descriptor of a records-delete message: interface and method names,
the target record id, and the creation timestamp (a string, compared
lexicographically). -/
structure Descriptor where
  interface : String
  method : String
  recordId : String
  dateCreated : String
deriving DecidableEq, Repr

/-- Namespace stand-in for the source's DwnInterfaceName enum. -/
def DwnInterfaceName.Records : String := "Records"

def DwnInterfaceName.Messages : String := "Messages"

/-- Namespace stand-in for the source's DwnMethodName enum. -/
def DwnMethodName.Delete : String := "Delete"

def DwnMethodName.Read : String := "Read"

def DwnMethodName.Write : String := "Write"

def DwnMethodName.Get : String := "Get"

/-- A stored or incoming message: its descriptor plus its content-derived
identifier (CID).  The CID is computed outside this engine from the
canonical encoding of the message, so it is carried as a field here;
distinct messages have distinct CIDs. -/
structure TimestampedMessage where
  descriptor : Descriptor
  cid : String
deriving DecidableEq, Repr

/-- Modelled from the spec: `Message.getCid` is not under src; the spec says
the ContentId is the deterministic content-derived identifier of the
message, carried here as the `cid` field. -/
def Message.getCid (m : TimestampedMessage) : String := m.cid

/-- Strict lexicographic order on lists of characters: shorter is smaller
when one is a proper initial segment of the other. -/
def charListLt : List Char → List Char → Bool
  | [], [] => false
  | [], _ :: _ => true
  | _ :: _, [] => false
  | a :: as, b :: bs =>
    if a < b then true
    else if b < a then false
    else charListLt as bs

/-- Strict lexicographic order on strings, by their character lists. -/
def strLt (a b : String) : Bool := charListLt a.data b.data

/-- Modelled from the spec: `RecordsWrite.isNewer` is not under src; the
spec orders messages by the lexicographic `(dateCreated, ContentId)` pair —
timestamp is the primary key, content identity the tie-break for
exactly-equal timestamps.  `isNewer a b` holds when `a` strictly outranks
`b` in that order. -/
def RecordsWrite.isNewer (a b : TimestampedMessage) : Bool :=
  if a.descriptor.dateCreated = b.descriptor.dateCreated then
    strLt b.cid a.cid
  else
    strLt b.descriptor.dateCreated a.descriptor.dateCreated

/-- Modelled from the spec: `RecordsWrite.getNewestMessage` is not under
src; the spec defines it as the element of the set with the
lexicographically greatest `(dateCreated, ContentId)` pair. -/
def RecordsWrite.getNewestMessage : List TimestampedMessage → Option TimestampedMessage
  | [] => none
  | m :: ms =>
    match RecordsWrite.getNewestMessage ms with
    | none => some m
    | some n => if RecordsWrite.isNewer m n then some m else some n

/-- The spec-side strict ordering: `outranks a b` when `a`'s
`(dateCreated, ContentId)` pair is lexicographically greater than `b`'s. -/
def outranks (a b : TimestampedMessage) : Prop :=
  strLt b.descriptor.dateCreated a.descriptor.dateCreated = true ∨
    (a.descriptor.dateCreated = b.descriptor.dateCreated ∧ strLt b.cid a.cid = true)

instance (a b : TimestampedMessage) : Decidable (outranks a b) := by
  unfold outranks; infer_instance

/-- A handler reply: numeric status code and human-readable detail. -/
structure MessageReply where
  code : Nat
  detail : String
deriving DecidableEq, Repr

/-- Observable pipeline events of one `handle` run, in execution order.
`put`, `append` and `prune` are the storage/log mutations; the others are
reads or pure stages. -/
inductive Event where
  | parse : Event
  | authenticate : Event
  | authorize : Event
  | queryStore : Event
  | resolveConflict : Event
  | put : TimestampedMessage → List (String × String) → Event
  | append : String → Event
  | prune : List TimestampedMessage → TimestampedMessage → Event
deriving DecidableEq, Repr

/-- True exactly on the events that mutate the message store, event log or
data store. -/
def Event.isMutation : Event → Bool
  | Event.put _ _ => true
  | Event.append _ => true
  | Event.prune _ _ => true
  | _ => false

/-- Parsed records-delete: the resolved author together with the raw
message it wraps. -/
structure RecordsDelete where
  author : String
  message : TimestampedMessage
deriving DecidableEq, Repr

/-- The descriptor's fields as the flat key/value entries its object spread
produces. -/
def descriptorEntries (d : Descriptor) : List (String × String) :=
  [("interface", d.interface), ("method", d.method),
   ("recordId", d.recordId), ("dateCreated", d.dateCreated)]

/-- Index projection for a records-delete (`constructIndexes` in the
source): the resolved author plus the spread of every descriptor field.
The `isLatestBaseState` index is intentionally omitted so that a delete
removes the record from default query results. -/
def constructIndexes (tenant : String) (recordsDelete : RecordsDelete) :
    List (String × String) :=
  let message := recordsDelete.message
  let descriptor := descriptorEntries message.descriptor
  ("author", recordsDelete.author) :: descriptor

/-- Input of one `RecordsDeleteHandler.handle` run.  The outcomes of the
external collaborators are part of the input: the parse result (the
resolved author on success), the authentication and authorization results,
and the message store's answer to the `recordId` query. -/
structure HandlerInput where
  tenant : String
  message : TimestampedMessage
  parseResult : Except String String
  authenticateResult : Except String Unit
  authorizeResult : Except String Unit
  existing : List TimestampedMessage
deriving Repr

/-- The conflict-resolution decision of `handle` (lines computing
`incomingMessageIsNewest`): the incoming message is treated as newest when
no existing message is found or it is newer than the newest existing one. -/
def RecordsDeleteHandler.incomingIsNewest
    (existingMessages : List TimestampedMessage)
    (message : TimestampedMessage) : Bool :=
  match RecordsWrite.getNewestMessage existingMessages with
  | none => true
  | some newestExistingMessage => RecordsWrite.isNewer message newestExistingMessage

/-- The resolved newest message: the incoming one when it wins, otherwise
the newest existing one. -/
def RecordsDeleteHandler.resolveNewest
    (existingMessages : List TimestampedMessage)
    (message : TimestampedMessage) : TimestampedMessage :=
  match RecordsWrite.getNewestMessage existingMessages with
  | none => message
  | some newestExistingMessage =>
    if RecordsWrite.isNewer message newestExistingMessage then message
    else newestExistingMessage

/-- Handler pipeline `RecordsDeleteHandler.handle`: parse (400 on failure), authenticate and
authorize (401 on failure), query existing messages for the `recordId`,
conflict-resolve (409 when the incoming message is not newest), reply 404
when no existing message or the newest existing one is itself a delete,
otherwise persist the message with its indexes, append its CID to the
event log, prune older messages, and reply 202.  Returns the reply
together with the ordered trace of pipeline events. -/
def RecordsDeleteHandler.handle (inp : HandlerInput) : MessageReply × List Event :=
  match inp.parseResult with
  | Except.error e => ({ code := 400, detail := e }, [Event.parse])
  | Except.ok author =>
    match inp.authenticateResult with
    | Except.error e => ({ code := 401, detail := e }, [Event.parse, Event.authenticate])
    | Except.ok _ =>
      match inp.authorizeResult with
      | Except.error e =>
        ({ code := 401, detail := e }, [Event.parse, Event.authenticate, Event.authorize])
      | Except.ok _ =>
        let existingMessages := inp.existing
        let newestExistingMessage := RecordsWrite.getNewestMessage existingMessages
        let incomingMessageIsNewest :=
          RecordsDeleteHandler.incomingIsNewest existingMessages inp.message
        let newestMessage :=
          RecordsDeleteHandler.resolveNewest existingMessages inp.message
        if incomingMessageIsNewest = false then
          ({ code := 409, detail := "Conflict" },
           [Event.parse, Event.authenticate, Event.authorize,
            Event.queryStore, Event.resolveConflict])
        else if (match newestExistingMessage with
                 | none => true
                 | some n => n.descriptor.method == DwnMethodName.Delete) then
          ({ code := 404, detail := "Not Found" },
           [Event.parse, Event.authenticate, Event.authorize,
            Event.queryStore, Event.resolveConflict])
        else
          let indexes := constructIndexes inp.tenant ⟨author, inp.message⟩
          let messageCid := Message.getCid inp.message
          ({ code := 202, detail := "Accepted" },
           [Event.parse, Event.authenticate, Event.authorize,
            Event.queryStore, Event.resolveConflict,
            Event.put inp.message indexes,
            Event.append messageCid,
            Event.prune existingMessages newestMessage])

/-- Input of one run of the dispatcher's pre-flight checks: the tenant
gate's answer, the raw message's optional `descriptor.interface` and
`descriptor.method` fields, and the JSON-schema validation outcome. -/
structure PreflightInput where
  isTenant : Bool
  dwnInterface : Option String
  dwnMethod : Option String
  schemaOk : Bool
deriving Repr

/-- Pre-flight checks `Dwn.preprocessingChecks`: tenancy gate (401), presence of
`descriptor.interface` and `descriptor.method` (400), match against the
expected interface and method when bound (400), then JSON-schema
validation (400).  Returns `none` when every check passes. -/
def Dwn.preprocessingChecks (p : PreflightInput)
    (expectedInterface expectedMethod : Option String) : Option MessageReply :=
  if p.isTenant = false then
    some { code := 401, detail := "not a tenant" }
  else if p.dwnInterface = none ∨ p.dwnMethod = none then
    some { code := 400, detail := "Both interface and method must be present" }
  else if expectedInterface ≠ none ∧ expectedInterface ≠ p.dwnInterface then
    some { code := 400, detail := "unexpected interface" }
  else if expectedMethod ≠ none ∧ expectedMethod ≠ p.dwnMethod then
    some { code := 400, detail := "unexpected method" }
  else if p.schemaOk = false then
    some { code := 400, detail := "schema validation failed" }
  else
    none

/-- Shared shape of `Dwn.processMessage` and the bound entry points: run
the pre-flight checks, return the error reply when one fires, otherwise
dispatch to the handler (whose reply is abstracted as `handlerReply`).
The boolean records whether the handler was reached. -/
def Dwn.dispatch (p : PreflightInput)
    (expectedInterface expectedMethod : Option String)
    (handlerReply : MessageReply) : MessageReply × Bool :=
  match Dwn.preprocessingChecks p expectedInterface expectedMethod with
  | some errorMessageReply => (errorMessageReply, false)
  | none => (handlerReply, true)

/-- Entry point `Dwn.processMessage`: pre-flight checks with no bound interface or
method, then dispatch by the literal interface+method pair. -/
def Dwn.processMessage (p : PreflightInput) (handlerReply : MessageReply) :
    MessageReply × Bool :=
  Dwn.dispatch p none none handlerReply

/-- Entry point `Dwn.handleRecordsRead`: bound to the Records interface, Read method. -/
def Dwn.handleRecordsRead (p : PreflightInput) (handlerReply : MessageReply) :
    MessageReply × Bool :=
  Dwn.dispatch p (some DwnInterfaceName.Records) (some DwnMethodName.Read) handlerReply

/-- Entry point `Dwn.handleMessagesGet`: bound to the Messages interface, Get method. -/
def Dwn.handleMessagesGet (p : PreflightInput) (handlerReply : MessageReply) :
    MessageReply × Bool :=
  Dwn.dispatch p (some DwnInterfaceName.Messages) (some DwnMethodName.Get) handlerReply

/-- Entry point `Dwn.synchronizePrunedInitialRecordsWrite`: bound to the Records
interface, Write method. -/
def Dwn.synchronizePrunedInitialRecordsWrite (p : PreflightInput)
    (handlerReply : MessageReply) : MessageReply × Bool :=
  Dwn.dispatch p (some DwnInterfaceName.Records) (some DwnMethodName.Write) handlerReply

/-- One protocol type object as held in a `ProtocolDefinition`'s `types`
map: an optional schema URL and the remaining fields (data formats). -/
structure ProtocolType where
  schema : Option String
  dataFormats : List String
deriving DecidableEq, Repr

/-- A protocol definition.  JavaScript objects are reference values, so the
nested type objects are represented by addresses into a heap of
`ProtocolType` cells: `types` maps each type name to the address of its
type object.  `structureRules` stands for the definition's remaining
field (its `structure` rule tree), which the normalizer never touches. -/
structure ProtocolDefinition where
  protocol : String
  types : List (String × Nat)
  structureRules : List (String × String)
deriving DecidableEq, Repr

/-- The heap of protocol type objects: contents of each address. -/
def TypeHeap : Type := Nat → ProtocolType

/-- The normalizer's `for (const typeName in typesCopy)` loop: for each
entry whose type object has a schema, overwrite that object's `schema`
field in place (a heap update at the entry's address). -/
def normalizeTypesLoop (normalizeSchemaUrl : String → String) :
    List (String × Nat) → TypeHeap → TypeHeap
  | [], h => h
  | entry :: rest, h =>
    let t := h entry.2
    let h' :=
      match t.schema with
      | none => h
      | some schema =>
        fun a =>
          if a = entry.2 then { t with schema := some (normalizeSchemaUrl schema) }
          else h a
    normalizeTypesLoop normalizeSchemaUrl rest h'

/-- Normalizer `ProtocolsConfigure.normalizeDefinition`, heap-explicit.  The source
shallow-copies the `types` map (`{ ...definition.types }`): the copy holds
the same object references, so `typesCopy[typeName].schema = ...` writes
through to the caller's nested type objects.  The returned definition is a
fresh value with the normalized protocol URL and the copied (same
addresses) `types` map; the heap returned is the heap after those in-place
schema updates.  The URL normalizers are external utilities, taken as
function parameters. -/
def ProtocolsConfigure.normalizeDefinition
    (normalizeProtocolUrl normalizeSchemaUrl : String → String)
    (definition : ProtocolDefinition) (heap : TypeHeap) :
    ProtocolDefinition × TypeHeap :=
  let typesCopy := definition.types
  let heapAfter := normalizeTypesLoop normalizeSchemaUrl typesCopy heap
  ({ definition with
      protocol := normalizeProtocolUrl definition.protocol,
      types := typesCopy },
   heapAfter)

/-- Normalization of one type object's schema field, as the loop applies it
to each (distinctly addressed) type object. -/
def normalizeType (normalizeSchemaUrl : String → String) (t : ProtocolType) : ProtocolType :=
  match t.schema with
  | none => t
  | some schema => { t with schema := some (normalizeSchemaUrl schema) }

/-- A private key in JWK form; its fields are opaque to the derivation
bookkeeping verified here. -/
structure PrivateJwk where
  d : String
deriving DecidableEq, Repr

/-- A derived private key: root key id, derivation scheme, the path from
the root, and the key material itself. -/
structure DerivedPrivateJwk where
  rootKeyId : String
  derivationScheme : String
  derivationPath : Option (List String)
  derivedPrivateKey : PrivateJwk
deriving DecidableEq, Repr

/-- The secp256k1 operations `HdKey` calls into; external to this engine,
so taken as parameters. -/
structure Secp256k1Ops where
  privateJwkToBytes : PrivateJwk → List Nat
  derivePrivateKey : List Nat → List String → List Nat
  privateKeyToJwk : List Nat → PrivateJwk

/-- Key derivation `HdKey.derivePrivateKey`: derives a descendant private key, keeping the
ancestor's root key id and derivation scheme and extending its derivation
path (empty when absent) with the sub-derivation path. -/
def HdKey.derivePrivateKey (secp : Secp256k1Ops)
    (ancestorKey : DerivedPrivateJwk) (subDerivationPath : List String) :
    DerivedPrivateJwk :=
  let ancestorPrivateKey := secp.privateJwkToBytes ancestorKey.derivedPrivateKey
  let ancestorPrivateKeyDerivationPath := ancestorKey.derivationPath.getD []
  let derivedPrivateKeyBytes := secp.derivePrivateKey ancestorPrivateKey subDerivationPath
  let derivedPrivateJwk := secp.privateKeyToJwk derivedPrivateKeyBytes
  { rootKeyId := ancestorKey.rootKeyId
    derivationScheme := ancestorKey.derivationScheme
    derivationPath := some (ancestorPrivateKeyDerivationPath ++ subDerivationPath)
    derivedPrivateKey := derivedPrivateJwk }

/-! Concrete sample messages and handler inputs used to exercise the
definitions on explicit inputs. -/

/-- A delete message for record `r1` at timestamp 1. -/
def sampleDelete1 : TimestampedMessage :=
  { descriptor :=
      { interface := "Records", method := "Delete", recordId := "r1", dateCreated := "2023-01" },
    cid := "bafyD1" }

/-- A later delete message for record `r1` at timestamp 2. -/
def sampleDelete2 : TimestampedMessage :=
  { descriptor :=
      { interface := "Records", method := "Delete", recordId := "r1", dateCreated := "2023-02" },
    cid := "bafyD2" }

/-- A write message for record `r1` at timestamp 1. -/
def sampleWrite1 : TimestampedMessage :=
  { descriptor :=
      { interface := "Records", method := "Write", recordId := "r1", dateCreated := "2023-01" },
    cid := "bafyW1" }

/-- A write message for record `r1` at timestamp 2, tie-broken below
`sampleWrite2b` by CID. -/
def sampleWrite2a : TimestampedMessage :=
  { descriptor :=
      { interface := "Records", method := "Write", recordId := "r1", dateCreated := "2023-02" },
    cid := "bafyAA" }

/-- A write message for record `r1` at timestamp 2 with the greater CID. -/
def sampleWrite2b : TimestampedMessage :=
  { descriptor :=
      { interface := "Records", method := "Write", recordId := "r1", dateCreated := "2023-02" },
    cid := "bafyBB" }

/-- An incoming delete older than an already-stored delete: the conflict
check fires before the not-found check. -/
def staleDeleteInput : HandlerInput :=
  { tenant := "did:example:alice", message := sampleDelete1,
    parseResult := Except.ok "did:example:alice",
    authenticateResult := Except.ok (), authorizeResult := Except.ok (),
    existing := [sampleDelete2] }

/-- A delete of a record with no existing messages at all. -/
def noRecordDeleteInput : HandlerInput :=
  { tenant := "did:example:alice", message := sampleDelete1,
    parseResult := Except.ok "did:example:alice",
    authenticateResult := Except.ok (), authorizeResult := Except.ok (),
    existing := [] }

/-- A delete admitted over an existing write: the accept path. -/
def acceptDeleteInput : HandlerInput :=
  { tenant := "did:example:alice", message := sampleDelete2,
    parseResult := Except.ok "did:example:alice",
    authenticateResult := Except.ok (), authorizeResult := Except.ok (),
    existing := [sampleWrite1] }

/-- A run whose parse step fails. -/
def badParseInput : HandlerInput :=
  { tenant := "did:example:alice", message := sampleDelete1,
    parseResult := Except.error "invalid message",
    authenticateResult := Except.ok (), authorizeResult := Except.ok (),
    existing := [sampleWrite1] }

/-- A replay: the incoming message is already the newest stored one. -/
def replayDeleteInput : HandlerInput :=
  { tenant := "did:example:alice", message := sampleDelete2,
    parseResult := Except.ok "did:example:alice",
    authenticateResult := Except.ok (), authorizeResult := Except.ok (),
    existing := [sampleWrite1, sampleDelete2] }

/-- A parsed records-delete used to exercise the index projection. -/
def sampleRecordsDelete : RecordsDelete :=
  { author := "did:example:alice", message := sampleDelete2 }

/-- Pre-flight input whose tenant is not served by the node. -/
def notTenantPreflight : PreflightInput :=
  { isTenant := false, dwnInterface := some "Records", dwnMethod := some "Read",
    schemaOk := true }

/-- A stand-in downstream handler reply for dispatch runs. -/
def sampleHandlerReply : MessageReply := { code := 202, detail := "Accepted" }

/-- Identity protocol-URL normalizer for concrete runs. -/
def sampleNormalizeProtocolUrl : String → String := fun s => s

/-- A schema-URL normalizer that visibly changes its input. -/
def sampleNormalizeSchemaUrl : String → String := fun _ => "http://normalized/schema"

/-- A heap holding one type object (at address 0) with a schema. -/
def sampleHeap : TypeHeap :=
  fun _ => { schema := some "RawSchema", dataFormats := ["application/json"] }

/-- A protocol definition whose single type points at address 0. -/
def sampleDefinition : ProtocolDefinition :=
  { protocol := "example.com/proto", types := [("doc", 0)],
    structureRules := [("doc", "rules")] }

/-! Order lemmas for the lexicographic comparison. -/

/-- The character-list order is irreflexive. -/
theorem charListLt_irrefl : ∀ l : List Char, charListLt l l = false
  | [] => rfl
  | a :: as => by
    unfold charListLt
    rw [if_neg (lt_irrefl a), if_neg (lt_irrefl a)]
    exact charListLt_irrefl as

/-- The character-list order is asymmetric. -/
theorem charListLt_asymm : ∀ l₁ l₂ : List Char,
    charListLt l₁ l₂ = true → charListLt l₂ l₁ = false
  | [], [], h => by simp [charListLt] at h
  | [], _ :: _, _ => rfl
  | _ :: _, [], h => by simp [charListLt] at h
  | a :: as, b :: bs, h => by
    unfold charListLt at h ⊢
    by_cases hab : a < b
    · rw [if_neg (lt_asymm hab), if_pos hab]
    · by_cases hba : b < a
      · rw [if_neg hab, if_pos hba] at h
        exact Bool.noConfusion h
      · rw [if_neg hab, if_neg hba] at h
        rw [if_neg hba, if_neg hab]
        exact charListLt_asymm as bs h

/-- The character-list order is transitive. -/
theorem charListLt_trans : ∀ l₁ l₂ l₃ : List Char,
    charListLt l₁ l₂ = true → charListLt l₂ l₃ = true → charListLt l₁ l₃ = true
  | [], [], _, h₁, _ => Bool.noConfusion h₁
  | _ :: _, [], _, h₁, _ => Bool.noConfusion h₁
  | [], _ :: _, [], _, h₂ => Bool.noConfusion h₂
  | _ :: _, _ :: _, [], _, h₂ => Bool.noConfusion h₂
  | [], _ :: _, _ :: _, _, _ => rfl
  | a :: as, b :: bs, c :: cs, h₁, h₂ => by
    unfold charListLt at h₁ h₂ ⊢
    by_cases hab : a < b
    · by_cases hbc : b < c
      · rw [if_pos (lt_trans hab hbc)]
      · by_cases hcb : c < b
        · rw [if_neg hbc, if_pos hcb] at h₂
          exact Bool.noConfusion h₂
        · have hbc' : b = c := le_antisymm (le_of_not_lt hcb) (le_of_not_lt hbc)
          rw [if_pos (hbc' ▸ hab)]
    · by_cases hba : b < a
      · rw [if_neg hab, if_pos hba] at h₁
        exact Bool.noConfusion h₁
      · have hab' : a = b := le_antisymm (le_of_not_lt hba) (le_of_not_lt hab)
        rw [if_neg hab, if_neg hba] at h₁
        subst hab'
        by_cases hac : a < c
        · rw [if_pos hac]
        · by_cases hca : c < a
          · rw [if_neg hac, if_pos hca] at h₂
            exact Bool.noConfusion h₂
          · rw [if_neg hac, if_neg hca] at h₂ ⊢
            exact charListLt_trans as bs cs h₁ h₂

/-- Two character lists unrelated in either direction are equal. -/
theorem charListLt_connex : ∀ l₁ l₂ : List Char,
    charListLt l₁ l₂ = false → charListLt l₂ l₁ = false → l₁ = l₂
  | [], [], _, _ => rfl
  | [], _ :: _, h₁, _ => Bool.noConfusion h₁
  | _ :: _, [], _, h₂ => Bool.noConfusion h₂
  | a :: as, b :: bs, h₁, h₂ => by
    unfold charListLt at h₁ h₂
    by_cases hab : a < b
    · rw [if_pos hab] at h₁
      exact Bool.noConfusion h₁
    · by_cases hba : b < a
      · rw [if_pos hba] at h₂
        exact Bool.noConfusion h₂
      · have hab' : a = b := le_antisymm (le_of_not_lt hba) (le_of_not_lt hab)
        rw [if_neg hab, if_neg hba] at h₁
        rw [if_neg hba, if_neg hab] at h₂
        rw [hab', charListLt_connex as bs h₁ h₂]

/-- The string order is irreflexive. -/
theorem strLt_irrefl (s : String) : strLt s s = false :=
  charListLt_irrefl s.data

/-- The string order is asymmetric. -/
theorem strLt_asymm {a b : String} (h : strLt a b = true) : strLt b a = false :=
  charListLt_asymm a.data b.data h

/-- The string order is transitive. -/
theorem strLt_trans {a b c : String} (h₁ : strLt a b = true) (h₂ : strLt b c = true) :
    strLt a c = true :=
  charListLt_trans a.data b.data c.data h₁ h₂

/-- Two strings unrelated in either direction are equal. -/
theorem strLt_connex {a b : String} (h₁ : strLt a b = false) (h₂ : strLt b a = false) :
    a = b := by
  have hd : a.data = b.data := charListLt_connex a.data b.data h₁ h₂
  cases a
  cases b
  exact congrArg String.mk hd

/-! Lemmas about the message ordering and the newest-message computation. -/

/-- The comparison `isNewer` agrees with the spec-side strict `(dateCreated, ContentId)`
ordering. -/
theorem isNewer_eq_true_iff (a b : TimestampedMessage) :
    RecordsWrite.isNewer a b = true ↔ outranks a b := by
  unfold RecordsWrite.isNewer outranks
  by_cases h : a.descriptor.dateCreated = b.descriptor.dateCreated
  · rw [if_pos h]
    constructor
    · intro hc
      exact Or.inr ⟨h, hc⟩
    · rintro (hd | ⟨_, hc⟩)
      · rw [h] at hd
        rw [strLt_irrefl] at hd
        exact Bool.noConfusion hd
      · exact hc
  · rw [if_neg h]
    constructor
    · intro hd
      exact Or.inl hd
    · rintro (hd | ⟨heq, _⟩)
      · exact hd
      · exact absurd heq h

/-- No message outranks itself. -/
theorem outranks_irrefl (a : TimestampedMessage) : ¬ outranks a a := by
  rintro (hd | ⟨_, hc⟩)
  · rw [strLt_irrefl] at hd
    exact Bool.noConfusion hd
  · rw [strLt_irrefl] at hc
    exact Bool.noConfusion hc

/-- The outranking order is asymmetric. -/
theorem outranks_asymm {a b : TimestampedMessage} (h : outranks a b) : ¬ outranks b a := by
  rintro (hd₂ | ⟨he₂, hc₂⟩) <;> rcases h with hd₁ | ⟨he₁, hc₁⟩
  · rw [strLt_asymm hd₁] at hd₂
    exact Bool.noConfusion hd₂
  · rw [he₁, strLt_irrefl] at hd₂
    exact Bool.noConfusion hd₂
  · rw [he₂, strLt_irrefl] at hd₁
    exact Bool.noConfusion hd₁
  · rw [strLt_asymm hc₁] at hc₂
    exact Bool.noConfusion hc₂

/-- The outranking order is transitive. -/
theorem outranks_trans {a b c : TimestampedMessage}
    (h₁ : outranks a b) (h₂ : outranks b c) : outranks a c := by
  rcases h₁ with hd₁ | ⟨he₁, hc₁⟩ <;> rcases h₂ with hd₂ | ⟨he₂, hc₂⟩
  · exact Or.inl (strLt_trans hd₂ hd₁)
  · exact Or.inl (he₂ ▸ hd₁)
  · exact Or.inl (he₁ ▸ hd₂)
  · exact Or.inr ⟨he₁.trans he₂, strLt_trans hc₂ hc₁⟩

/-- Messages with distinct `(dateCreated, ContentId)` pairs are comparable:
one of the two outranks the other. -/
theorem outranks_total {a b : TimestampedMessage}
    (h : ¬ (a.descriptor.dateCreated = b.descriptor.dateCreated ∧ a.cid = b.cid)) :
    outranks a b ∨ outranks b a := by
  by_cases hd : a.descriptor.dateCreated = b.descriptor.dateCreated
  · by_cases hc : strLt b.cid a.cid = true
    · exact Or.inl (Or.inr ⟨hd, hc⟩)
    · by_cases hc' : strLt a.cid b.cid = true
      · exact Or.inr (Or.inr ⟨hd.symm, hc'⟩)
      · exact absurd ⟨hd, strLt_connex (Bool.not_eq_true _ ▸ hc') (Bool.not_eq_true _ ▸ hc)⟩ h
  · by_cases hlt : strLt b.descriptor.dateCreated a.descriptor.dateCreated = true
    · exact Or.inl (Or.inl hlt)
    · by_cases hlt' : strLt a.descriptor.dateCreated b.descriptor.dateCreated = true
      · exact Or.inr (Or.inl hlt')
      · exact absurd (strLt_connex (Bool.not_eq_true _ ▸ hlt') (Bool.not_eq_true _ ▸ hlt)) hd

/-- Outranking depends only on the `(dateCreated, ContentId)` pair. -/
theorem outranks_of_eq_keys {a b c : TimestampedMessage}
    (hd : a.descriptor.dateCreated = b.descriptor.dateCreated) (hc : a.cid = b.cid)
    (h : outranks b c) : outranks a c := by
  unfold outranks at h ⊢
  rw [hd, hc]
  exact h

/-- The newest-message computation returns `none` exactly on the empty
set. -/
theorem getNewestMessage_eq_none_iff (l : List TimestampedMessage) :
    RecordsWrite.getNewestMessage l = none ↔ l = [] := by
  cases l with
  | nil => simp [RecordsWrite.getNewestMessage]
  | cons m ms =>
    simp only [RecordsWrite.getNewestMessage]
    cases h : RecordsWrite.getNewestMessage ms with
    | none => simp
    | some n =>
      split <;> simp <;> split <;> simp

/-- No element of the set outranks the newest message. -/
theorem getNewestMessage_max : ∀ (l : List TimestampedMessage) (n : TimestampedMessage),
    RecordsWrite.getNewestMessage l = some n → ∀ m ∈ l, ¬ outranks m n
  | [], _, h, _, _ => Option.noConfusion h
  | x :: xs, n, h, m, hm => by
    unfold RecordsWrite.getNewestMessage at h
    cases hrec : RecordsWrite.getNewestMessage xs with
    | none =>
      simp only [hrec] at h
      have hxn : x = n := Option.some.inj h
      have hxs : xs = [] := (getNewestMessage_eq_none_iff xs).1 hrec
      subst hxn
      subst hxs
      rcases List.mem_cons.mp hm with rfl | hm'
      · exact outranks_irrefl m
      · cases hm'
    | some k =>
      simp only [hrec] at h
      by_cases hxk : RecordsWrite.isNewer x k = true
      · rw [if_pos hxk] at h
        have hxn : x = n := Option.some.inj h
        subst hxn
        have hout : outranks x k := (isNewer_eq_true_iff x k).1 hxk
        rcases List.mem_cons.mp hm with rfl | hm'
        · exact outranks_irrefl m
        · intro hcon
          exact getNewestMessage_max xs k hrec m hm' (outranks_trans hcon hout)
      · rw [if_neg hxk] at h
        have hkn : k = n := Option.some.inj h
        subst hkn
        rcases List.mem_cons.mp hm with rfl | hm'
        · intro hcon
          exact hxk ((isNewer_eq_true_iff m k).2 hcon)
        · exact getNewestMessage_max xs k hrec m hm'

/-- The conflict check passes exactly when no existing message is present
or the incoming message strictly outranks the newest existing one. -/
theorem incomingIsNewest_iff (l : List TimestampedMessage) (m : TimestampedMessage) :
    RecordsDeleteHandler.incomingIsNewest l m = true ↔
      (l = [] ∨ ∃ n, RecordsWrite.getNewestMessage l = some n ∧ outranks m n) := by
  unfold RecordsDeleteHandler.incomingIsNewest
  cases h : RecordsWrite.getNewestMessage l with
  | none =>
    simp [(getNewestMessage_eq_none_iff l).1 h]
  | some n =>
    have hl : l ≠ [] := by
      intro e
      rw [e] at h
      exact Option.noConfusion h
    simp [h, hl, isNewer_eq_true_iff]

/-- Exhaustive case analysis of `handle`: every run either rejects — with a
non-202 code and no mutation events — or accepts with code 202, a passed
conflict check, and the fixed accept trace. -/
theorem handle_cases (inp : HandlerInput) :
    ((RecordsDeleteHandler.handle inp).1.code ≠ 202 ∧
     (RecordsDeleteHandler.handle inp).2.filter Event.isMutation = [])
    ∨ ((RecordsDeleteHandler.handle inp).1.code = 202 ∧
       RecordsDeleteHandler.incomingIsNewest inp.existing inp.message = true ∧
       ∃ a, inp.parseResult = Except.ok a ∧
         (RecordsDeleteHandler.handle inp).2 =
           [Event.parse, Event.authenticate, Event.authorize, Event.queryStore,
            Event.resolveConflict,
            Event.put inp.message (constructIndexes inp.tenant ⟨a, inp.message⟩),
            Event.append (Message.getCid inp.message),
            Event.prune inp.existing
              (RecordsDeleteHandler.resolveNewest inp.existing inp.message)]) := by
  unfold RecordsDeleteHandler.handle
  cases hp : inp.parseResult with
  | error e =>
    left
    simp [Event.isMutation, List.filter]
  | ok a =>
    cases h1 : inp.authenticateResult with
    | error e =>
      left
      simp [Event.isMutation, List.filter]
    | ok u =>
      cases h2 : inp.authorizeResult with
      | error e =>
        left
        simp [Event.isMutation, List.filter]
      | ok v =>
        by_cases hr : RecordsDeleteHandler.incomingIsNewest inp.existing inp.message = false
        · left
          simp [hr, Event.isMutation, List.filter]
        · have hr' : RecordsDeleteHandler.incomingIsNewest inp.existing inp.message = true := by
            revert hr
            cases RecordsDeleteHandler.incomingIsNewest inp.existing inp.message <;> simp
          by_cases hnf : (match RecordsWrite.getNewestMessage inp.existing with
                          | none => true
                          | some n => n.descriptor.method == DwnMethodName.Delete) = true
          · left
            simp [hr', hnf, Event.isMutation, List.filter]
          · right
            refine ⟨?_, hr', a, rfl, ?_⟩ <;> simp [hr', hnf]

/-! Lemmas about the normalizer's in-place loop. -/

/-- Addresses referenced by no entry of the loop are left unchanged. -/
theorem normalizeTypesLoop_untouched (normS : String → String) :
    ∀ (l : List (String × Nat)) (h : TypeHeap) (addr : Nat),
      (∀ e ∈ l, e.2 ≠ addr) → normalizeTypesLoop normS l h addr = h addr
  | [], _, _, _ => rfl
  | entry :: rest, h, addr, hall => by
    unfold normalizeTypesLoop
    have hne : entry.2 ≠ addr := hall entry (List.mem_cons_self _ _)
    have hrest : ∀ e ∈ rest, e.2 ≠ addr := fun e he => hall e (List.mem_cons_of_mem _ he)
    cases hsc : (h entry.2).schema with
    | none =>
      simp only [hsc]
      exact normalizeTypesLoop_untouched normS rest h addr hrest
    | some s =>
      simp only [hsc]
      rw [normalizeTypesLoop_untouched normS rest _ addr hrest]
      exact if_neg (fun e => hne e.symm)

/-- With distinct addresses, the loop rewrites each referenced type object
to its schema-normalized form. -/
theorem normalizeTypesLoop_normalizes (normS : String → String) :
    ∀ (l : List (String × Nat)) (h : TypeHeap),
      (l.map Prod.snd).Nodup →
      ∀ e ∈ l, normalizeTypesLoop normS l h e.2 = normalizeType normS (h e.2)
  | [], _, _, e, he => absurd he (List.not_mem_nil e)
  | entry :: rest, h, hnd, e, he => by
    have hnd' : (rest.map Prod.snd).Nodup := by
      simp only [List.map_cons, List.nodup_cons] at hnd
      exact hnd.2
    have hx : entry.2 ∉ rest.map Prod.snd := by
      simp only [List.map_cons, List.nodup_cons] at hnd
      exact hnd.1
    have hxrest : ∀ e' ∈ rest, e'.2 ≠ entry.2 := by
      intro e' he' hcontra
      exact hx (hcontra ▸ List.mem_map_of_mem Prod.snd he')
    unfold normalizeTypesLoop
    rcases List.mem_cons.mp he with rfl | he'
    · cases hsc : (h e.2).schema with
      | none =>
        simp only [hsc]
        rw [normalizeTypesLoop_untouched normS rest h e.2 hxrest]
        unfold normalizeType
        rw [hsc]
      | some s =>
        simp only [hsc]
        rw [normalizeTypesLoop_untouched normS rest _ e.2 hxrest]
        unfold normalizeType
        rw [hsc]
        simp
    · have hne : entry.2 ≠ e.2 := fun hcontra => hxrest e he' hcontra.symm
      cases hsc : (h entry.2).schema with
      | none =>
        simp only [hsc]
        exact normalizeTypesLoop_normalizes normS rest h hnd' e he'
      | some s =>
        simp only [hsc]
        rw [normalizeTypesLoop_normalizes normS rest _ hnd' e he']
        congr 1
        exact if_neg (fun ee => hne ee.symm)

/-! The claim theorems. -/

/-- C1 (counterexample): the newest existing message for the record is
itself a delete, yet the reply is 409 Conflict, not 404 NotFound — the
conflict check runs before the not-found check, so an incoming delete that
does not outrank an already-stored delete is rejected as a conflict. -/
theorem delete_notfound_claim_cex :
    RecordsWrite.getNewestMessage staleDeleteInput.existing = some sampleDelete2 ∧
    sampleDelete2.descriptor.method = DwnMethodName.Delete ∧
    (RecordsDeleteHandler.handle staleDeleteInput).1 =
      { code := 409, detail := "Conflict" } := by
  decide

/-- C1 (amended): in a run whose parse, authentication and authorization
succeed and whose incoming message passes the conflict check, if no
existing message for the record exists or the current newest existing
message is itself a delete, the reply is NotFound (404). -/
theorem delete_notfound_amended (inp : HandlerInput) (a : String)
    (hp : inp.parseResult = Except.ok a)
    (h1 : inp.authenticateResult = Except.ok ())
    (h2 : inp.authorizeResult = Except.ok ())
    (hres : RecordsDeleteHandler.incomingIsNewest inp.existing inp.message = true)
    (hdel : inp.existing = [] ∨ ∃ n, RecordsWrite.getNewestMessage inp.existing = some n ∧
      n.descriptor.method = DwnMethodName.Delete) :
    (RecordsDeleteHandler.handle inp).1 = { code := 404, detail := "Not Found" } := by
  have hnf : (match RecordsWrite.getNewestMessage inp.existing with
              | none => true
              | some n => n.descriptor.method == DwnMethodName.Delete) = true := by
    rcases hdel with hnil | ⟨n, hn, hm⟩
    · rw [(getNewestMessage_eq_none_iff inp.existing).2 hnil]
    · rw [hn]
      simp [hm]
  unfold RecordsDeleteHandler.handle
  simp [hp, h1, h2, hres, hnf]

/-- C1 (witness for the amended theorem): deleting a record with no
existing messages at all replies 404. -/
theorem delete_notfound_amended_witness :
    (RecordsDeleteHandler.handle noRecordDeleteInput).1 =
      { code := 404, detail := "Not Found" } :=
  delete_notfound_amended noRecordDeleteInput "did:example:alice" rfl rfl rfl
    (by decide) (Or.inl rfl)

/-- C2: in a run whose parse, authentication and authorization succeed, the
handler treats the incoming message as newest exactly when the existing
set is empty or the incoming message strictly outranks the newest existing
message under the (dateCreated, ContentId) ordering, and it replies 409
Conflict exactly when that conflict check fails. -/
theorem conflict_check_iff (inp : HandlerInput) (a : String)
    (hp : inp.parseResult = Except.ok a)
    (h1 : inp.authenticateResult = Except.ok ())
    (h2 : inp.authorizeResult = Except.ok ()) :
    (RecordsDeleteHandler.incomingIsNewest inp.existing inp.message = true ↔
      (inp.existing = [] ∨ ∃ n, RecordsWrite.getNewestMessage inp.existing = some n ∧
        outranks inp.message n)) ∧
    ((RecordsDeleteHandler.handle inp).1.code = 409 ↔
      RecordsDeleteHandler.incomingIsNewest inp.existing inp.message = false) := by
  refine ⟨incomingIsNewest_iff _ _, ?_⟩
  unfold RecordsDeleteHandler.handle
  by_cases hr : RecordsDeleteHandler.incomingIsNewest inp.existing inp.message = false
  · simp [hp, h1, h2, hr]
  · have hr' : RecordsDeleteHandler.incomingIsNewest inp.existing inp.message = true := by
      revert hr
      cases RecordsDeleteHandler.incomingIsNewest inp.existing inp.message <;> simp
    by_cases hnf : (match RecordsWrite.getNewestMessage inp.existing with
                    | none => true
                    | some n => n.descriptor.method == DwnMethodName.Delete) = true
    · simp [hp, h1, h2, hr', hnf]
    · simp [hp, h1, h2, hr', hnf]

/-- C2 (witness): an incoming delete older than the stored newest message
fails the conflict check and is replied 409. -/
theorem conflict_check_iff_witness :
    (RecordsDeleteHandler.handle staleDeleteInput).1.code = 409 ↔
      RecordsDeleteHandler.incomingIsNewest staleDeleteInput.existing
        staleDeleteInput.message = false :=
  (conflict_check_iff staleDeleteInput "did:example:alice" rfl rfl rfl).2

/-- C3: every rejected run — parse failure, authentication or authorization
failure, conflict, or not-found — performs no message-store put, no
event-log append and no pruning: the trace holds no mutation event. -/
theorem rejection_no_side_effects (inp : HandlerInput)
    (h : (RecordsDeleteHandler.handle inp).1.code ≠ 202) :
    (RecordsDeleteHandler.handle inp).2.filter Event.isMutation = [] := by
  rcases handle_cases inp with ⟨_, hf⟩ | ⟨h202, _⟩
  · exact hf
  · exact absurd h202 h

/-- C3 (witness): a parse failure leaves the stored state untouched. -/
theorem rejection_no_side_effects_witness :
    (RecordsDeleteHandler.handle badParseInput).2.filter Event.isMutation = [] :=
  rejection_no_side_effects badParseInput (by decide)

/-- C4: for two messages with distinct (dateCreated, ContentId) pairs, the
conflict resolution picks the same winner whichever of the two is existing
and which incoming, and the incoming one wins exactly when it strictly
outranks the other — timestamp first, content identity as tie-break. -/
theorem resolution_deterministic (A B : TimestampedMessage)
    (h : ¬ (A.descriptor.dateCreated = B.descriptor.dateCreated ∧ A.cid = B.cid)) :
    RecordsDeleteHandler.resolveNewest [A] B = RecordsDeleteHandler.resolveNewest [B] A ∧
    (RecordsDeleteHandler.resolveNewest [A] B = B ↔ outranks B A) := by
  have hA : RecordsWrite.getNewestMessage [A] = some A := rfl
  have hB : RecordsWrite.getNewestMessage [B] = some B := rfl
  unfold RecordsDeleteHandler.resolveNewest
  simp only [hA, hB]
  by_cases hba : RecordsWrite.isNewer B A = true
  · have hout : outranks B A := (isNewer_eq_true_iff B A).1 hba
    have hnab : ¬ (RecordsWrite.isNewer A B = true) :=
      fun hx => outranks_asymm hout ((isNewer_eq_true_iff A B).1 hx)
    rw [if_pos hba, if_neg hnab]
    exact ⟨rfl, iff_of_true rfl hout⟩
  · have hnout : ¬ outranks B A := fun ho => hba ((isNewer_eq_true_iff B A).2 ho)
    have hout' : outranks A B := by
      rcases outranks_total h with h' | h'
      · exact h'
      · exact absurd h' hnout
    have hab : RecordsWrite.isNewer A B = true := (isNewer_eq_true_iff A B).2 hout'
    rw [if_neg hba, if_pos hab]
    refine ⟨rfl, iff_of_false ?_ hnout⟩
    intro hAB
    exact h ⟨by rw [hAB], by rw [hAB]⟩

/-- C4 (witness): two writes at the same timestamp are resolved the same
way in either direction, by the CID tie-break. -/
theorem resolution_deterministic_witness :
    RecordsDeleteHandler.resolveNewest [sampleWrite2a] sampleWrite2b =
      RecordsDeleteHandler.resolveNewest [sampleWrite2b] sampleWrite2a ∧
    (RecordsDeleteHandler.resolveNewest [sampleWrite2a] sampleWrite2b = sampleWrite2b ↔
      outranks sampleWrite2b sampleWrite2a) :=
  resolution_deterministic sampleWrite2a sampleWrite2b (by decide)

/-- C5: when the incoming message carries the same (dateCreated, ContentId)
pair as a message already stored for the record — in particular when it is
a replay of the newest stored message — the run is not accepted as a new
state change: the reply is never 202 and no mutation event occurs, so the
resolved newest state is unchanged and no event-log entry is appended. -/
theorem replay_idempotent (inp : HandlerInput)
    (h : ∃ m ∈ inp.existing,
      m.descriptor.dateCreated = inp.message.descriptor.dateCreated ∧
      m.cid = inp.message.cid) :
    (RecordsDeleteHandler.handle inp).1.code ≠ 202 ∧
    (RecordsDeleteHandler.handle inp).2.filter Event.isMutation = [] := by
  obtain ⟨m, hm, hdate, hcid⟩ := h
  obtain ⟨n, hn⟩ : ∃ n, RecordsWrite.getNewestMessage inp.existing = some n := by
    cases hg : RecordsWrite.getNewestMessage inp.existing with
    | none =>
      rw [(getNewestMessage_eq_none_iff _).1 hg] at hm
      cases hm
    | some n => exact ⟨n, rfl⟩
  have hmax : ¬ outranks m n := getNewestMessage_max inp.existing n hn m hm
  have hinc : ¬ outranks inp.message n := fun hh =>
    hmax (outranks_of_eq_keys hdate hcid hh)
  have hres : RecordsDeleteHandler.incomingIsNewest inp.existing inp.message = false := by
    cases hx : RecordsDeleteHandler.incomingIsNewest inp.existing inp.message
    · rfl
    · exfalso
      rcases (incomingIsNewest_iff _ _).1 hx with hnil | ⟨n', hn', hout⟩
      · rw [hnil] at hn
        exact Option.noConfusion hn
      · rw [hn] at hn'
        have e := Option.some.inj hn'
        rw [← e] at hout
        exact hinc hout
  rcases handle_cases inp with ⟨hc, hf⟩ | ⟨_, hr, _⟩
  · exact ⟨hc, hf⟩
  · rw [hr] at hres
    exact Bool.noConfusion hres

/-- C5 (witness): replaying the newest stored delete is rejected with no
side effects. -/
theorem replay_idempotent_witness :
    (RecordsDeleteHandler.handle replayDeleteInput).1.code ≠ 202 ∧
    (RecordsDeleteHandler.handle replayDeleteInput).2.filter Event.isMutation = [] :=
  replay_idempotent replayDeleteInput ⟨sampleDelete2, by decide, rfl, rfl⟩

/-- C6: the index row of a records-delete holds the resolved author and
every descriptor field, and holds no `isLatestBaseState` key — the
is-current flag is never set on delete rows. -/
theorem delete_indexes_shape (tenant : String) (rd : RecordsDelete) :
    (constructIndexes tenant rd).lookup "author" = some rd.author ∧
    (∀ kv ∈ descriptorEntries rd.message.descriptor, kv ∈ constructIndexes tenant rd) ∧
    (constructIndexes tenant rd).lookup "isLatestBaseState" = none := by
  refine ⟨rfl, ?_, rfl⟩
  intro kv hkv
  exact List.mem_cons_of_mem _ hkv

/-- C6 (witness): the projected row of a concrete delete. -/
theorem delete_indexes_shape_witness :
    (constructIndexes "did:example:alice" sampleRecordsDelete).lookup "author" =
      some "did:example:alice" ∧
    ("recordId", "r1") ∈ constructIndexes "did:example:alice" sampleRecordsDelete ∧
    (constructIndexes "did:example:alice" sampleRecordsDelete).lookup
      "isLatestBaseState" = none :=
  ⟨(delete_indexes_shape "did:example:alice" sampleRecordsDelete).1,
   (delete_indexes_shape "did:example:alice" sampleRecordsDelete).2.1
     ("recordId", "r1") (by decide),
   (delete_indexes_shape "did:example:alice" sampleRecordsDelete).2.2⟩

/-- C7: every accepted run emits exactly the fixed pipeline trace — parse,
authenticate, authorize, store query, conflict resolution, message-store
put of the incoming message with its indexes, event-log append of its CID,
and finally the pruning of older messages — none skipped or reordered, so
authorization precedes every mutation, conflict resolution precedes the
index and log writes, the put precedes the append, and pruning follows
persistence. -/
theorem accept_pipeline_order (inp : HandlerInput)
    (h : (RecordsDeleteHandler.handle inp).1.code = 202) :
    ∃ a, inp.parseResult = Except.ok a ∧
      (RecordsDeleteHandler.handle inp).2 =
        [Event.parse, Event.authenticate, Event.authorize, Event.queryStore,
         Event.resolveConflict,
         Event.put inp.message (constructIndexes inp.tenant ⟨a, inp.message⟩),
         Event.append (Message.getCid inp.message),
         Event.prune inp.existing
           (RecordsDeleteHandler.resolveNewest inp.existing inp.message)] := by
  rcases handle_cases inp with ⟨hc, _⟩ | ⟨_, _, a, hp, ht⟩
  · exact absurd h hc
  · exact ⟨a, hp, ht⟩

/-- C7 (witness): the accept trace of a concrete admitted delete. -/
theorem accept_pipeline_order_witness :
    ∃ a, acceptDeleteInput.parseResult = Except.ok a ∧
      (RecordsDeleteHandler.handle acceptDeleteInput).2 =
        [Event.parse, Event.authenticate, Event.authorize, Event.queryStore,
         Event.resolveConflict,
         Event.put acceptDeleteInput.message
           (constructIndexes acceptDeleteInput.tenant ⟨a, acceptDeleteInput.message⟩),
         Event.append (Message.getCid acceptDeleteInput.message),
         Event.prune acceptDeleteInput.existing
           (RecordsDeleteHandler.resolveNewest acceptDeleteInput.existing
             acceptDeleteInput.message)] :=
  accept_pipeline_order acceptDeleteInput (by decide)

/-- C8: the pre-flight checks are ordered and terminal on first rejection:
a tenant not served yields 401 regardless of the message's shape, a
missing or mismatched interface or method yields 400 with no dispatch, the
handler is reached exactly when every check passes, and then its reply is
returned unchanged. -/
theorem preflight_checks (p : PreflightInput)
    (expectedInterface expectedMethod : Option String) (handlerReply : MessageReply) :
    (p.isTenant = false →
      Dwn.dispatch p expectedInterface expectedMethod handlerReply =
        ({ code := 401, detail := "not a tenant" }, false)) ∧
    (p.isTenant = true →
      (p.dwnInterface = none ∨ p.dwnMethod = none ∨
       (expectedInterface ≠ none ∧ expectedInterface ≠ p.dwnInterface) ∨
       (expectedMethod ≠ none ∧ expectedMethod ≠ p.dwnMethod)) →
      (Dwn.dispatch p expectedInterface expectedMethod handlerReply).1.code = 400 ∧
      (Dwn.dispatch p expectedInterface expectedMethod handlerReply).2 = false) ∧
    ((Dwn.dispatch p expectedInterface expectedMethod handlerReply).2 = true ↔
      Dwn.preprocessingChecks p expectedInterface expectedMethod = none) ∧
    (Dwn.preprocessingChecks p expectedInterface expectedMethod = none →
      Dwn.dispatch p expectedInterface expectedMethod handlerReply =
        (handlerReply, true)) := by
  unfold Dwn.dispatch Dwn.preprocessingChecks
  by_cases ht : p.isTenant = false
  · simp [ht]
  · have ht' : p.isTenant = true := by
      revert ht
      cases p.isTenant <;> simp
    by_cases hA : p.dwnInterface = none
    · simp [ht', hA]
    · by_cases hB : p.dwnMethod = none
      · simp [ht', hA, hB]
      · by_cases hC : expectedInterface ≠ none ∧ expectedInterface ≠ p.dwnInterface
        · simp [ht', hA, hB, hC]
        · by_cases hD : expectedMethod ≠ none ∧ expectedMethod ≠ p.dwnMethod
          · simp [ht', hA, hB, hC, hD]
          · by_cases hs : p.schemaOk = false
            · simp [ht', hA, hB, hC, hD, hs]
            · have hs' : p.schemaOk = true := by
                revert hs
                cases p.schemaOk <;> simp
              simp [ht', hA, hB, hC, hD, hs']

/-- C8 (witness): a tenant not served is rejected 401 before any shape
check and the handler is never reached. -/
theorem preflight_checks_witness :
    Dwn.dispatch notTenantPreflight none none sampleHandlerReply =
      ({ code := 401, detail := "not a tenant" }, false) :=
  (preflight_checks notTenantPreflight none none sampleHandlerReply).1 rfl

/-- C9 (counterexample): `normalizeDefinition` mutates a nested type object
reached through `definition.types`: the type object at address 0 is
reachable from the caller's definition, and after the call the heap cell
at that address differs from before — the shallow copy of `types` shares
the nested objects, so the schema assignment writes through. -/
theorem normalize_definition_mutates_cex :
    ("doc", 0) ∈ sampleDefinition.types ∧
    (ProtocolsConfigure.normalizeDefinition sampleNormalizeProtocolUrl
        sampleNormalizeSchemaUrl sampleDefinition sampleHeap).2 0 ≠ sampleHeap 0 := by
  decide

/-- C9 (amended): `normalizeDefinition` returns a definition with the
normalized protocol URL, the same (shared-address) types map and unchanged
remaining fields; it leaves every heap cell not referenced by the types
map untouched; and — when the type objects are distinct — it rewrites each
referenced type object in place to its schema-normalized form, so the
caller's nested type objects are mutated rather than preserved. -/
theorem normalize_definition_amended
    (normalizeProtocolUrl normalizeSchemaUrl : String → String)
    (definition : ProtocolDefinition) (heap : TypeHeap) :
    (ProtocolsConfigure.normalizeDefinition normalizeProtocolUrl normalizeSchemaUrl
        definition heap).1.protocol = normalizeProtocolUrl definition.protocol ∧
    (ProtocolsConfigure.normalizeDefinition normalizeProtocolUrl normalizeSchemaUrl
        definition heap).1.types = definition.types ∧
    (ProtocolsConfigure.normalizeDefinition normalizeProtocolUrl normalizeSchemaUrl
        definition heap).1.structureRules = definition.structureRules ∧
    (∀ addr, (∀ e ∈ definition.types, e.2 ≠ addr) →
      (ProtocolsConfigure.normalizeDefinition normalizeProtocolUrl normalizeSchemaUrl
          definition heap).2 addr = heap addr) ∧
    ((definition.types.map Prod.snd).Nodup →
      ∀ e ∈ definition.types,
        (ProtocolsConfigure.normalizeDefinition normalizeProtocolUrl normalizeSchemaUrl
            definition heap).2 e.2 = normalizeType normalizeSchemaUrl (heap e.2)) :=
  ⟨rfl, rfl, rfl,
   fun addr hall => normalizeTypesLoop_untouched normalizeSchemaUrl definition.types heap addr hall,
   fun hnd e he => normalizeTypesLoop_normalizes normalizeSchemaUrl definition.types heap hnd e he⟩

/-- C9 (witness for the amended theorem): the concrete type object at
address 0 is rewritten in place to its schema-normalized form. -/
theorem normalize_definition_amended_witness :
    (ProtocolsConfigure.normalizeDefinition sampleNormalizeProtocolUrl
        sampleNormalizeSchemaUrl sampleDefinition sampleHeap).2 0 =
      normalizeType sampleNormalizeSchemaUrl (sampleHeap 0) :=
  (normalize_definition_amended sampleNormalizeProtocolUrl sampleNormalizeSchemaUrl
      sampleDefinition sampleHeap).2.2.2.2 (by decide) ("doc", 0) (by decide)

/-- C10: the derived descendant key keeps the ancestor's root key id and
derivation scheme, and its derivation path is the ancestor's path (empty
when absent) extended with the sub-derivation path. -/
theorem derive_key_metadata (secp : Secp256k1Ops) (ancestorKey : DerivedPrivateJwk)
    (subDerivationPath : List String) :
    (HdKey.derivePrivateKey secp ancestorKey subDerivationPath).rootKeyId =
      ancestorKey.rootKeyId ∧
    (HdKey.derivePrivateKey secp ancestorKey subDerivationPath).derivationScheme =
      ancestorKey.derivationScheme ∧
    (HdKey.derivePrivateKey secp ancestorKey subDerivationPath).derivationPath =
      some (ancestorKey.derivationPath.getD [] ++ subDerivationPath) :=
  ⟨rfl, rfl, rfl⟩
